import Mathlib

/-!
Shallow embedding of the estroz/rerun-actions repository core logic.

The repository contains three near-identical handler variants:
* variant A: the Action handler in rerun_actions.go (func (h handler) handle),
* variant B: the webhook handler RerunActionsHandler.Handle (part_001),
* variant C: the consolidated Action handler (part_002, second file).

Pure helpers (parseCommentsToWorkflowNames, canUserComment, isIssueRerunable,
hasOkToTestLabel, isCommenterPrivileged) are translated directly from the Go
source.  The handler pipelines are embedded as trace functions producing the
list of API calls issued against an abstract environment that answers each
fetch with an Option value (none models a fetch error).  Network call results
for ListWorkflowRunsByID are modelled per workflow id; the server-side
actor and event filters of the Go call are folded into that oracle.
-/

/-! ## Data model (read-only snapshots of the GitHub entities used by the code) -/

structure Issue where
  isPullRequest : Bool
  locked : Bool
  labels : List String
  number : Nat
  userLogin : String
  deriving DecidableEq

structure Comment where
  user : String
  body : String
  authorAssociation : String
  deriving DecidableEq

structure PullRequest where
  headSHA : String
  createdAt : Nat
  merged : Bool
  deriving DecidableEq

structure Workflow where
  id : Nat
  name : String
  path : String
  state : String
  deriving DecidableEq

structure WorkflowRun where
  id : Nat
  workflowID : Nat
  headSHA : String
  createdAt : Nat
  status : String
  conclusion : String
  deriving DecidableEq

/-- Allow and deny user pattern lists, compiled once at startup.  Each compiled
regular expression is modelled extensionally as its matching predicate on the
login string (regexp.Regexp.MatchString). -/
structure Config where
  allowUserRegexps : List (String → Bool)
  denyUserRegexps : List (String → Bool)

/-- An issue_comment webhook event payload, as consumed by variant B. -/
structure IssueCommentEvent where
  action : String
  issue : Issue
  commentUser : String
  commentBody : String

/-- The external world for one invocation: each fetch answers with none on a
fetch error.  githubWorkflow is the value of the GITHUB_WORKFLOW environment
variable (the identity of the currently executing workflow). -/
structure Env where
  comment : Option Comment
  issue : Option Issue
  pr : Option PullRequest
  workflows : Option (List Workflow)
  runsOf : Nat → Option (List WorkflowRun)
  githubWorkflow : String

/-- One API call issued by a handler, in order. -/
inductive ApiCall where
  | getComment
  | getIssue
  | getPR
  | listWorkflows
  | listRuns (workflowID : Nat)
  | cancelRun (runID : Nat)
  | rerunRun (runID : Nat)
  deriving DecidableEq

/-- cancel and rerun are the only state-changing (side-effecting) calls. -/
def ApiCall.isMutation : ApiCall → Bool
  | .cancelRun _ => true
  | .rerunRun _ => true
  | _ => false

/-! ## Command Parser (parseCommentsToWorkflowNames, identical in all variants
up to the two recognized command words: retest/test in variant A and B,
rerun-all/rerun-workflow in variant C) -/

/-- Sentinel map key used for the rerun-all command (const testAll = "__all"). -/
def testAll : String := "__all"

/-- Split a character list at every occurrence of sep, keeping empty pieces,
exactly like strings.Split(s, string(sep)). -/
def splitOnChar (sep : Char) : List Char → List (List Char)
  | [] => [[]]
  | c :: rest =>
    match splitOnChar sep rest with
    | [] => [[c]]
    | w :: ws => if c = sep then [] :: w :: ws else (c :: w) :: ws

/-- The code points trimmed by strings.TrimSpace (unicode.IsSpace). -/
def isGoSpace (c : Char) : Bool :=
  [0x20, 0x9, 0xA, 0xB, 0xC, 0xD, 0x85, 0xA0, 0x1680,
    0x2000, 0x2001, 0x2002, 0x2003, 0x2004, 0x2005, 0x2006, 0x2007,
    0x2008, 0x2009, 0x200A, 0x2028, 0x2029, 0x202F, 0x205F, 0x3000].contains c.toNat

/-- strings.TrimSpace: drop leading and trailing whitespace characters. -/
def trimSpace (l : List Char) : List Char :=
  ((l.dropWhile isGoSpace).reverse.dropWhile isGoSpace).reverse

/-- Drop one trailing carriage return, as bufio.ScanLines does (dropCR). -/
def dropTrailingCR (l : List Char) : List Char :=
  if l.getLast? = some '\r' then l.dropLast else l

/-- The lines produced by bufio.Scanner with ScanLines: split at newlines, do
not emit a final empty token for a trailing newline, strip a trailing CR. -/
def scanLines (s : List Char) : List (List Char) :=
  if s = [] then []
  else
    let parts := splitOnChar '\n' s
    let parts2 := if parts.getLast? = some [] then parts.dropLast else parts
    parts2.map dropTrailingCR

/-- Tokenize one line the way the Go loop does: split on the space character,
trim whitespace around each piece, and keep only nonempty pieces. -/
def tokenizeLine (line : List Char) : List (List Char) :=
  ((splitOnChar ' ' line).map trimSpace).filter (fun w => !w.isEmpty)

/-- Insertion into the testsToRerun set (a Go map used only for membership). -/
def insertName (s : String) (acc : List String) : List String :=
  if s ∈ acc then acc else acc ++ [s]

/-- Number of bytes in the UTF-8 encoding of one character: Go strings are
byte strings and the Go len counts bytes, not characters. -/
def charUtf8Size (c : Char) : Nat :=
  if c.toNat < 0x80 then 1
  else if c.toNat < 0x800 then 2
  else if c.toNat < 0x10000 then 3
  else 4

/-- UTF-8 byte length of a token, matching len(splitComment[0]) in Go. -/
def utf8Len (l : List Char) : Nat :=
  l.foldr (fun c n => charUtf8Size c + n) 0

/-- The scanner loop of parseCommentsToWorkflowNames.  A line that is empty
after tokenization, or whose first token is shorter than 5 UTF-8 bytes or does
not begin with a slash, makes the whole parse return nil (the empty set),
discarding acc.  The Go length test len(splitComment[0]) < 5 counts bytes,
modelled by utf8Len; the Go byte test splitComment[0][0] != the slash byte is
equivalent to the first character not being a slash, because the slash is a
single-byte character and no UTF-8 continuation byte equals it.  Recognized
command words emit entries; everything else on an otherwise valid command line
is ignored.  In the switch, Go slices off the first byte of the token; the
guard guarantees that byte is the one-byte slash, so dropping one character is
the same slice. -/
def parseLoop (allCmd wfCmd : List Char) : List String → List (List Char) → List String
  | acc, [] => acc
  | acc, line :: rest =>
    match tokenizeLine line with
    | [] => []
    | t0 :: ts =>
      if utf8Len t0 < 5 ∨ t0.head? ≠ some '/' then []
      else if t0.drop 1 = allCmd then parseLoop allCmd wfCmd (insertName testAll acc) rest
      else if t0.drop 1 = wfCmd then
        match ts with
        | [] => parseLoop allCmd wfCmd acc rest
        | t1 :: _ => parseLoop allCmd wfCmd (insertName (String.mk t1) acc) rest
      else parseLoop allCmd wfCmd acc rest

/-- parseCommentsToWorkflowNames, parameterized by the two command words:
variant A and B use retest and test, variant C uses rerun-all and
rerun-workflow.  The remaining source text is identical across variants. -/
def parseCommentsToWorkflowNames (allCmd wfCmd commentBody : String) : List String :=
  parseLoop allCmd.data wfCmd.data [] (scanLines commentBody.data)

/-! ## Eligibility and authorization predicates -/

/-- isIssueRerunable (rerun_actions.go and part_002): a non-locked PR. -/
def isIssueRerunable (issue : Issue) : Bool :=
  issue.isPullRequest && !issue.locked

/-- go-github Stringify rendering of a Label value, as produced by the
label.String() call in the part_001 variant of isIssueRerunable. -/
def goLabelString (name : String) : String :=
  "github.Label\x7bName:\"" ++ name ++ "\"\x7d"

/-- The part_001 variant of isIssueRerunable: rejects non-PR or locked issues,
then loops over the labels comparing label.String() against "ok-to-test",
returning true on a match and also returning true after the loop. -/
def isIssueRerunableB (issue : Issue) : Bool :=
  if !issue.isPullRequest || issue.locked then false
  else if issue.labels.any (fun l => goLabelString l = "ok-to-test") then true
  else true

/-- hasOkToTestLabel: some label name equals "ok-to-test". -/
def hasOkToTestLabel (issue : Issue) : Bool :=
  issue.labels.any (fun l => l = "ok-to-test")

/-- ASCII lower-casing of one character, the fragment of strings.ToLower
exercised by the upper-case association keywords. -/
def charLower (c : Char) : Char :=
  if 65 ≤ c.toNat ∧ c.toNat ≤ 90 then Char.ofNat (c.toNat + 32) else c

/-- strings.ToLower on the ASCII range. -/
def lowerAscii (s : String) : String :=
  String.mk (s.data.map charLower)

/-- isCommenterPrivileged (part_002): the author association, lower-cased, is
collaborator, contributor, member, or owner. -/
def isCommenterPrivileged (authorAssoc : String) : Bool :=
  ["collaborator", "contributor", "member", "owner"].contains (lowerAscii authorAssoc)

/-- canUserComment (rerun_actions.go): false on any non-matching allow pattern,
false on any matching deny pattern, otherwise true. -/
def canUserComment (cfg : Config) (user : String) : Bool :=
  if cfg.allowUserRegexps.any (fun re => !re user) then false
  else if cfg.denyUserRegexps.any (fun re => re user) then false
  else true

/-- canAuthorComment (part_001): textually the same loops as canUserComment. -/
def canAuthorComment (cfg : Config) (author : String) : Bool :=
  if cfg.allowUserRegexps.any (fun re => !re author) then false
  else if cfg.denyUserRegexps.any (fun re => re author) then false
  else true

/-- The gate sequence of variant A (rerun_actions.go lines 43 to 58):
isIssueRerunable, then hasOkToTestLabel, then canUserComment, every check
returning early on failure. -/
def gateA (cfg : Config) (issue : Issue) (user : String) : Bool :=
  isIssueRerunable issue && (hasOkToTestLabel issue && canUserComment cfg user)

/-- The gate sequence of variant B (part_001 lines 142 to 159): the part_001
isIssueRerunable, then canAuthorComment. -/
def gateB (cfg : Config) (issue : Issue) (author : String) : Bool :=
  isIssueRerunableB issue && canAuthorComment cfg author

/-- The gate sequence of variant C (part_002 lines 280 to 290):
isIssueRerunable, then hasOkToTestLabel or isCommenterPrivileged. -/
def gateC (issue : Issue) (authorAssoc : String) : Bool :=
  isIssueRerunable issue && (hasOkToTestLabel issue || isCommenterPrivileged authorAssoc)

/-! ## Run Selector -/

/-- The per-workflow scan over the returned runs: stop at the first run older
than the PR, select the first run whose head SHA equals the PR head SHA. -/
def scanRuns (pr : PullRequest) : List WorkflowRun → Option WorkflowRun
  | [] => none
  | run :: rest =>
    if run.createdAt < pr.createdAt then none
    else if run.headSHA = pr.headSHA then some run
    else scanRuns pr rest

/-- Workflow targeting: all workflows when the rerun-all marker is present,
otherwise the workflows whose name is a requested command target. -/
def targetWorkflows (cmds : List String) (wfs : List Workflow) : List Workflow :=
  if cmds.contains testAll then wfs
  else wfs.filter (fun w => cmds.contains w.name)

/-- The selection loop over the target workflows, parameterized by the skip
test applied to each workflow.  It returns the run-list API calls issued and,
unless some run-list fetch failed (in which case the whole handler aborts with
the calls made so far), the selected runs in workflow order. -/
def selectLoop (skip : Workflow → Bool) (pr : PullRequest)
    (runsOf : Nat → Option (List WorkflowRun)) :
    List Workflow → List ApiCall × Option (List WorkflowRun)
  | [] => ([], some [])
  | w :: ws =>
    if skip w then selectLoop skip pr runsOf ws
    else
      match runsOf w.id with
      | none => ([ApiCall.listRuns w.id], none)
      | some runs =>
        let rest := selectLoop skip pr runsOf ws
        match scanRuns pr runs with
        | some r => (ApiCall.listRuns w.id :: rest.1, rest.2.map (fun l => r :: l))
        | none => (ApiCall.listRuns w.id :: rest.1, rest.2)

/-- Variant A selection (rerun_actions.go lines 99 to 135): skip the workflow
whose name or path equals GITHUB_WORKFLOW, and skip inactive workflows. -/
def selectLoopA (currentWF : String) (pr : PullRequest)
    (runsOf : Nat → Option (List WorkflowRun)) (wfs : List Workflow) :
    List ApiCall × Option (List WorkflowRun) :=
  selectLoop (fun w => currentWF == w.name || currentWF == w.path || w.state != "active")
    pr runsOf wfs

/-- Variant B selection (part_001 lines 199 to 226): only inactive workflows
are skipped; there is no self-workflow check. -/
def selectLoopB (pr : PullRequest) (runsOf : Nat → Option (List WorkflowRun))
    (wfs : List Workflow) : List ApiCall × Option (List WorkflowRun) :=
  selectLoop (fun w => w.state != "active") pr runsOf wfs

/-! ## Rerun Executor -/

/-- Variant A executor (rerun_actions.go lines 137 to 157): cancel then rerun
a non-completed run, skip a completed successful run, rerun the rest. -/
def execRunsA : List WorkflowRun → List ApiCall
  | [] => []
  | run :: rest =>
    if run.status ≠ "completed" then
      ApiCall.cancelRun run.id :: ApiCall.rerunRun run.id :: execRunsA rest
    else if run.conclusion = "success" then execRunsA rest
    else ApiCall.rerunRun run.id :: execRunsA rest

/-- Variant B executor (part_001 lines 228 to 240): cancel a non-completed run,
then always rerun; there is no completed-successful skip. -/
def execRunsB : List WorkflowRun → List ApiCall
  | [] => []
  | run :: rest =>
    if run.status ≠ "completed" then
      ApiCall.cancelRun run.id :: ApiCall.rerunRun run.id :: execRunsB rest
    else ApiCall.rerunRun run.id :: execRunsB rest

/-- Variant C executor (part_002 lines 367 to 388): skip a completed successful
run first, cancel a non-completed run, then rerun. -/
def execRunsC : List WorkflowRun → List ApiCall
  | [] => []
  | run :: rest =>
    if run.status = "completed" && run.conclusion = "success" then execRunsC rest
    else if run.status ≠ "completed" then
      ApiCall.cancelRun run.id :: ApiCall.rerunRun run.id :: execRunsC rest
    else ApiCall.rerunRun run.id :: execRunsC rest

/-! ## Handler pipelines as API-call traces -/

/-- Variant A pipeline (rerun_actions.go func handle): fetch comment, fetch
issue, gate, fetch PR, stop on a merged PR, parse, list workflows, select,
and execute.  Any failed fetch terminates the invocation with the calls made
so far and no further effect. -/
def handleA (cfg : Config) (env : Env) : List ApiCall :=
  ApiCall.getComment ::
    match env.comment with
    | none => []
    | some comment =>
      ApiCall.getIssue ::
        match env.issue with
        | none => []
        | some issue =>
          if !gateA cfg issue comment.user then []
          else
            ApiCall.getPR ::
              match env.pr with
              | none => []
              | some pr =>
                if pr.merged then []
                else
                  let tests := parseCommentsToWorkflowNames "retest" "test" comment.body
                  ApiCall.listWorkflows ::
                    match env.workflows with
                    | none => []
                    | some allWfs =>
                      let sel := selectLoopA env.githubWorkflow pr env.runsOf
                        (targetWorkflows tests allWfs)
                      match sel.2 with
                      | none => sel.1
                      | some runs => sel.1 ++ execRunsA runs

/-- Variant B pipeline (part_001 RerunActionsHandler.Handle): the event payload
carries the issue and comment inline; only created comments are handled. -/
def handleB (cfg : Config) (event : IssueCommentEvent) (env : Env) : List ApiCall :=
  if event.action ≠ "created" then []
  else if !gateB cfg event.issue event.commentUser then []
  else
    ApiCall.getPR ::
      match env.pr with
      | none => []
      | some pr =>
        if pr.merged then []
        else
          let tests := parseCommentsToWorkflowNames "retest" "test" event.commentBody
          ApiCall.listWorkflows ::
            match env.workflows with
            | none => []
            | some allWfs =>
              let sel := selectLoopB pr env.runsOf (targetWorkflows tests allWfs)
              match sel.2 with
              | none => sel.1
              | some runs => sel.1 ++ execRunsB runs

/-! ## Parser lemmas -/

/-- A scanned line on which the parse aborts: empty after tokenization, or a
first token shorter than 5 UTF-8 bytes or not beginning with a slash. -/
def isBadLine (line : List Char) : Bool :=
  match tokenizeLine line with
  | [] => true
  | t0 :: _ => decide (utf8Len t0 < 5) || decide (t0.head? ≠ some '/')

lemma splitOnChar_ne_nil (sep : Char) (l : List Char) : splitOnChar sep l ≠ [] := by
  cases l with
  | nil => simp [splitOnChar]
  | cons c rest =>
    unfold splitOnChar
    cases h : splitOnChar sep rest with
    | nil => simp
    | cons w ws => by_cases hc : c = sep <;> simp [hc]

lemma splitOnChar_append (sep : Char) (xs ys : List Char) :
    splitOnChar sep (xs ++ sep :: ys) = splitOnChar sep xs ++ splitOnChar sep ys := by
  induction xs with
  | nil =>
    cases h : splitOnChar sep ys with
    | nil => exact absurd h (splitOnChar_ne_nil sep ys)
    | cons w ws => simp [splitOnChar, h]
  | cons x xs ih =>
    cases hxs : splitOnChar sep xs with
    | nil => exact absurd hxs (splitOnChar_ne_nil sep xs)
    | cons w ws => by_cases hx : x = sep <;> simp [splitOnChar, ih, hxs, hx]

lemma tokenizeLine_space_append (xs ys : List Char) :
    tokenizeLine (xs ++ ' ' :: ys) = tokenizeLine xs ++ tokenizeLine ys := by
  unfold tokenizeLine
  rw [splitOnChar_append, List.map_append, List.filter_append]

lemma parseLoop_cons (allCmd wfCmd : List Char) (acc : List String)
    (line : List Char) (rest : List (List Char)) :
    parseLoop allCmd wfCmd acc (line :: rest) =
      match tokenizeLine line with
      | [] => []
      | t0 :: ts =>
        if utf8Len t0 < 5 ∨ t0.head? ≠ some '/' then []
        else if t0.drop 1 = allCmd then parseLoop allCmd wfCmd (insertName testAll acc) rest
        else if t0.drop 1 = wfCmd then
          match ts with
          | [] => parseLoop allCmd wfCmd acc rest
          | t1 :: _ => parseLoop allCmd wfCmd (insertName (String.mk t1) acc) rest
        else parseLoop allCmd wfCmd acc rest := rfl

lemma parseLoop_bad_head (allCmd wfCmd : List Char) (acc : List String)
    (line : List Char) (rest : List (List Char)) (h : isBadLine line = true) :
    parseLoop allCmd wfCmd acc (line :: rest) = [] := by
  unfold isBadLine at h
  rw [parseLoop_cons]
  cases htoks : tokenizeLine line with
  | nil => simp
  | cons t0 ts =>
    rw [htoks] at h
    simp only [Bool.or_eq_true, decide_eq_true_eq] at h
    simp [if_pos h]

lemma parseLoop_good_head (allCmd wfCmd : List Char) (acc : List String)
    (line : List Char) (rest : List (List Char)) (h : isBadLine line = false) :
    ∃ acc2, parseLoop allCmd wfCmd acc (line :: rest) = parseLoop allCmd wfCmd acc2 rest := by
  unfold isBadLine at h
  rw [parseLoop_cons]
  cases htoks : tokenizeLine line with
  | nil => rw [htoks] at h; simp at h
  | cons t0 ts =>
    rw [htoks] at h
    simp only [Bool.or_eq_false_iff, decide_eq_false_iff_not] at h
    simp only [htoks]
    rw [if_neg (by tauto)]
    by_cases hall : t0.drop 1 = allCmd
    · exact ⟨insertName testAll acc, by rw [if_pos hall]⟩
    · rw [if_neg hall]
      by_cases hwf : t0.drop 1 = wfCmd
      · rw [if_pos hwf]
        cases ts with
        | nil => exact ⟨acc, rfl⟩
        | cons t1 _ => exact ⟨insertName (String.mk t1) acc, rfl⟩
      · rw [if_neg hwf]
        exact ⟨acc, rfl⟩

lemma parseLoop_reaches_bad (allCmd wfCmd : List Char) :
    ∀ (lines : List (List Char)) (acc : List String),
      (∃ l ∈ lines, isBadLine l = true) → parseLoop allCmd wfCmd acc lines = [] := by
  intro lines
  induction lines with
  | nil => rintro acc ⟨l, hl, -⟩; exact absurd hl (List.not_mem_nil l)
  | cons line rest ih =>
    rintro acc ⟨l, hl, hbad⟩
    rcases List.mem_cons.mp hl with rfl | hl
    · exact parseLoop_bad_head allCmd wfCmd acc l rest hbad
    · by_cases hline : isBadLine line = true
      · exact parseLoop_bad_head allCmd wfCmd acc line rest hline
      · obtain ⟨acc2, hstep⟩ := parseLoop_good_head allCmd wfCmd acc line rest
          (Bool.not_eq_true _ ▸ hline)
      
        rw [hstep]
        exact ih acc2 ⟨l, hl, hbad⟩

/-! ## Selector lemmas -/

lemma selectLoop_cons (skip : Workflow → Bool) (pr : PullRequest)
    (runsOf : Nat → Option (List WorkflowRun)) (w : Workflow) (ws : List Workflow) :
    selectLoop skip pr runsOf (w :: ws) =
      if skip w then selectLoop skip pr runsOf ws
      else
        match runsOf w.id with
        | none => ([ApiCall.listRuns w.id], none)
        | some runs =>
          let rest := selectLoop skip pr runsOf ws
          match scanRuns pr runs with
          | some r => (ApiCall.listRuns w.id :: rest.1, rest.2.map (fun l => r :: l))
          | none => (ApiCall.listRuns w.id :: rest.1, rest.2) := rfl

lemma selectLoop_calls (skip : Workflow → Bool) (pr : PullRequest)
    (runsOf : Nat → Option (List WorkflowRun)) :
    ∀ (wfs : List Workflow) (c : ApiCall), c ∈ (selectLoop skip pr runsOf wfs).1 →
      ∃ wid, c = ApiCall.listRuns wid := by
  intro wfs
  induction wfs with
  | nil => intro c hc; simp [selectLoop] at hc
  | cons w ws ih =>
    intro c hc
    rw [selectLoop_cons] at hc
    by_cases hskip : skip w
    · rw [if_pos hskip] at hc; exact ih c hc
    · rw [if_neg hskip] at hc
      cases hruns : runsOf w.id with
      | none => simp [hruns] at hc; exact ⟨w.id, hc⟩
      | some runs =>
        simp only [hruns] at hc
        cases hscan : scanRuns pr runs with
        | some r =>
          simp [hscan] at hc
          rcases hc with rfl | hc
          · exact ⟨w.id, rfl⟩
          · exact ih c hc
        | none =>
          simp [hscan] at hc
          rcases hc with rfl | hc
          · exact ⟨w.id, rfl⟩
          · exact ih c hc

lemma selectLoop_fail (skip : Workflow → Bool) (pr : PullRequest)
    (runsOf : Nat → Option (List WorkflowRun)) :
    ∀ (wfs : List Workflow) (wid : Nat),
      ApiCall.listRuns wid ∈ (selectLoop skip pr runsOf wfs).1 → runsOf wid = none →
      (selectLoop skip pr runsOf wfs).2 = none := by
  intro wfs
  induction wfs with
  | nil => intro wid h; simp [selectLoop] at h
  | cons w ws ih =>
    intro wid h hnone
    rw [selectLoop_cons] at h ⊢
    by_cases hskip : skip w
    · rw [if_pos hskip] at h ⊢; exact ih wid h hnone
    · rw [if_neg hskip] at h ⊢
      cases hruns : runsOf w.id with
      | none => simp [hruns]
      | some runs =>
        simp only [hruns] at h ⊢
        cases hscan : scanRuns pr runs with
        | some r =>
          simp only [hscan] at h ⊢
          simp at h ⊢
          rcases h with heq | h
          · subst heq; rw [hnone] at hruns; cases hruns
          · rw [ih wid h hnone]
        | none =>
          simp only [hscan] at h ⊢
          simp at h ⊢
          rcases h with heq | h
          · subst heq; rw [hnone] at hruns; cases hruns
          · exact ih wid h hnone

lemma selectLoop_filter (skip p : Workflow → Bool) (pr : PullRequest)
    (runsOf : Nat → Option (List WorkflowRun)) (hp : ∀ w, p w = true → skip w = true) :
    ∀ wfs : List Workflow,
      selectLoop skip pr runsOf (wfs.filter (fun w => !p w)) = selectLoop skip pr runsOf wfs := by
  intro wfs
  induction wfs with
  | nil => rfl
  | cons w ws ih =>
    by_cases hpw : p w = true
    · rw [List.filter_cons_of_neg (by simp [hpw])]
      rw [ih, selectLoop_cons, if_pos (hp w hpw)]
    · rw [List.filter_cons_of_pos (by simp [Bool.not_eq_true] at hpw ⊢; exact hpw)]
      rw [selectLoop_cons, selectLoop_cons, ih]

lemma scanRuns_mem (pr : PullRequest) :
    ∀ (rs : List WorkflowRun) (r : WorkflowRun), scanRuns pr rs = some r →
      r ∈ rs ∧ r.headSHA = pr.headSHA := by
  intro rs
  induction rs with
  | nil => intro r h; simp [scanRuns] at h
  | cons run rest ih =>
    intro r h
    by_cases h1 : run.createdAt < pr.createdAt
    · simp [scanRuns, h1] at h
    · by_cases h2 : run.headSHA = pr.headSHA
      · simp [scanRuns, h1, h2] at h
        subst h
        exact ⟨List.mem_cons_self run rest, h2⟩
      · simp only [scanRuns, if_neg h1, if_neg h2] at h
        obtain ⟨hm, hs⟩ := ih r h
        exact ⟨List.mem_cons_of_mem run hm, hs⟩

lemma selectLoop_sound (skip : Workflow → Bool) (pr : PullRequest)
    (runsOf : Nat → Option (List WorkflowRun)) :
    ∀ (wfs : List Workflow) (res : List WorkflowRun),
      (∀ w ∈ wfs, ∀ r ∈ (runsOf w.id).getD [], r.workflowID = w.id) →
      (selectLoop skip pr runsOf wfs).2 = some res →
      ∀ r ∈ res, r.headSHA = pr.headSHA ∧ r.workflowID ∈ wfs.map (fun w => w.id) := by
  intro wfs
  induction wfs with
  | nil =>
    intro res _ h r hr
    simp [selectLoop] at h
    subst h
    simp at hr
  | cons w ws ih =>
    intro res hids h r hr
    rw [selectLoop_cons] at h
    by_cases hskip : skip w
    · rw [if_pos hskip] at h
      obtain ⟨hsha, hmem⟩ :=
        ih res (fun w2 hw2 => hids w2 (List.mem_cons_of_mem w hw2)) h r hr
      exact ⟨hsha, by simp only [List.map_cons]; exact List.mem_cons_of_mem _ hmem⟩
    · rw [if_neg hskip] at h
      cases hruns : runsOf w.id with
      | none => simp [hruns] at h
      | some runs =>
        simp only [hruns] at h
        cases hscan : scanRuns pr runs with
        | none =>
          simp only [hscan] at h
          obtain ⟨hsha, hmem⟩ :=
            ih res (fun w2 hw2 => hids w2 (List.mem_cons_of_mem w hw2)) h r hr
          exact ⟨hsha, by simp only [List.map_cons]; exact List.mem_cons_of_mem _ hmem⟩
        | some r0 =>
          simp only [hscan] at h
          simp at h
          cases hrest : (selectLoop skip pr runsOf ws).2 with
          | none => rw [hrest] at h; simp at h
          | some res0 =>
            rw [hrest] at h
            simp at h
            subst h
            rcases List.mem_cons.mp hr with rfl | hr
            · obtain ⟨hm, hs⟩ := scanRuns_mem pr runs r hscan
              refine ⟨hs, ?_⟩
              have hid := hids w (List.mem_cons_self w ws) r (by rw [hruns]; exact hm)
              rw [hid]
              simp
            · obtain ⟨hsha, hmem⟩ :=
                ih res0 (fun w2 hw2 => hids w2 (List.mem_cons_of_mem w hw2)) hrest r hr
              exact ⟨hsha, by simp only [List.map_cons]; exact List.mem_cons_of_mem _ hmem⟩

lemma selectLoop_pairwise (skip : Workflow → Bool) (pr : PullRequest)
    (runsOf : Nat → Option (List WorkflowRun)) :
    ∀ (wfs : List Workflow) (res : List WorkflowRun),
      ((wfs.map (fun w => w.id)).Nodup) →
      (∀ w ∈ wfs, ∀ r ∈ (runsOf w.id).getD [], r.workflowID = w.id) →
      (selectLoop skip pr runsOf wfs).2 = some res →
      res.Pairwise (fun a b => a.workflowID ≠ b.workflowID) := by
  intro wfs
  induction wfs with
  | nil =>
    intro res _ _ h
    simp [selectLoop] at h
    subst h
    exact List.Pairwise.nil
  | cons w ws ih =>
    intro res hnd hids h
    rw [selectLoop_cons] at h
    simp only [List.map_cons, List.nodup_cons] at hnd
    by_cases hskip : skip w
    · rw [if_pos hskip] at h
      exact ih res hnd.2 (fun w2 hw2 => hids w2 (List.mem_cons_of_mem w hw2)) h
    · rw [if_neg hskip] at h
      cases hruns : runsOf w.id with
      | none => simp [hruns] at h
      | some runs =>
        simp only [hruns] at h
        cases hscan : scanRuns pr runs with
        | none =>
          simp only [hscan] at h
          exact ih res hnd.2 (fun w2 hw2 => hids w2 (List.mem_cons_of_mem w hw2)) h
        | some r0 =>
          simp only [hscan] at h
          simp at h
          cases hrest : (selectLoop skip pr runsOf ws).2 with
          | none => rw [hrest] at h; simp at h
          | some res0 =>
            rw [hrest] at h
            simp at h
            subst h
            refine List.Pairwise.cons ?_
              (ih res0 hnd.2 (fun w2 hw2 => hids w2 (List.mem_cons_of_mem w hw2)) hrest)
            intro r2 hr2
            obtain ⟨hm0, -⟩ := scanRuns_mem pr runs r0 hscan
            have hid0 : r0.workflowID = w.id :=
              hids w (List.mem_cons_self w ws) r0 (by rw [hruns]; exact hm0)
            obtain ⟨-, hmem2⟩ :=
              selectLoop_sound skip pr runsOf ws res0
                (fun w2 hw2 => hids w2 (List.mem_cons_of_mem w hw2)) hrest r2 hr2
            rw [hid0]
            intro hcontra
            exact hnd.1 (hcontra ▸ hmem2)

/-! ## Executor lemmas -/

lemma execRunsA_append (xs ys : List WorkflowRun) :
    execRunsA (xs ++ ys) = execRunsA xs ++ execRunsA ys := by
  induction xs with
  | nil => rfl
  | cons run rest ih =>
    by_cases h1 : run.status = "completed"
    · by_cases h2 : run.conclusion = "success" <;> simp [execRunsA, h1, h2, ih]
    · simp [execRunsA, h1, ih]

lemma execRunsB_append (xs ys : List WorkflowRun) :
    execRunsB (xs ++ ys) = execRunsB xs ++ execRunsB ys := by
  induction xs with
  | nil => rfl
  | cons run rest ih =>
    by_cases h1 : run.status = "completed" <;> simp [execRunsB, h1, ih]

lemma execRunsC_append (xs ys : List WorkflowRun) :
    execRunsC (xs ++ ys) = execRunsC xs ++ execRunsC ys := by
  induction xs with
  | nil => rfl
  | cons run rest ih =>
    by_cases h1 : run.status = "completed"
    · by_cases h2 : run.conclusion = "success" <;> simp [execRunsC, h1, h2, ih]
    · simp [execRunsC, h1, ih]

lemma execRunsA_mutation (runs : List WorkflowRun) :
    ∀ c ∈ execRunsA runs, c.isMutation = true := by
  induction runs with
  | nil => intro c hc; simp [execRunsA] at hc
  | cons run rest ih =>
    intro c hc
    by_cases h1 : run.status = "completed"
    · by_cases h2 : run.conclusion = "success"
      · simp [execRunsA, h1, h2] at hc
        exact ih c hc
      · simp [execRunsA, h1, h2] at hc
        rcases hc with rfl | hc
        · rfl
        · exact ih c hc
    · simp [execRunsA, h1] at hc
      rcases hc with rfl | rfl | hc
      · rfl
      · rfl
      · exact ih c hc

lemma execRunsB_mutation (runs : List WorkflowRun) :
    ∀ c ∈ execRunsB runs, c.isMutation = true := by
  induction runs with
  | nil => intro c hc; simp [execRunsB] at hc
  | cons run rest ih =>
    intro c hc
    by_cases h1 : run.status = "completed"
    · simp [execRunsB, h1] at hc
      rcases hc with rfl | hc
      · rfl
      · exact ih c hc
    · simp [execRunsB, h1] at hc
      rcases hc with rfl | rfl | hc
      · rfl
      · rfl
      · exact ih c hc

lemma listRuns_notin_execA (wid : Nat) (runs : List WorkflowRun) :
    ApiCall.listRuns wid ∉ execRunsA runs := by
  intro h
  have := execRunsA_mutation runs _ h
  simp [ApiCall.isMutation] at this

lemma listRuns_notin_execB (wid : Nat) (runs : List WorkflowRun) :
    ApiCall.listRuns wid ∉ execRunsB runs := by
  intro h
  have := execRunsB_mutation runs _ h
  simp [ApiCall.isMutation] at this

/-! ## Claim theorems -/

/-- Claim C5 counterexample: the candidate-line length test counts UTF-8
bytes, not characters.  The first non-blank line of this body has the first
token with 3 characters (fewer than 5), so the claim asserts an empty result,
yet the program treats the 5-byte token as a candidate command line, ignores
its unrecognized word, and still collects the retest command from the second
line. -/
theorem claim5_counterexample :
    scanLines "/éé\n/retest".data = "/éé".data :: ["/retest".data] ∧
    tokenizeLine "/éé".data = ["/éé".data] ∧
    "/éé".data.length < 5 ∧
    parseCommentsToWorkflowNames "retest" "test" "/éé\n/retest" = [testAll] :=
  ⟨by decide, by decide, by decide, by decide⟩

/-- Claim C5 amended: for every comment body whose first non-blank line has a
first token that does not start with a slash or has fewer than 5 UTF-8 bytes
(not characters), the parser returns the empty command set regardless of
later lines; in particular the body "looks good /rerun-all" yields no
commands. -/
theorem claim5_first_line_gating :
    (∀ (allCmd wfCmd body : String) (pre : List (List Char)) (line : List Char)
        (post : List (List Char)) (t0 : List Char) (ts : List (List Char)),
      scanLines body.data = pre ++ line :: post →
      (∀ b ∈ pre, tokenizeLine b = []) →
      tokenizeLine line = t0 :: ts →
      (utf8Len t0 < 5 ∨ t0.head? ≠ some '/') →
      parseCommentsToWorkflowNames allCmd wfCmd body = []) ∧
    parseCommentsToWorkflowNames "rerun-all" "rerun-workflow" "looks good /rerun-all" = [] := by
  constructor
  · intro allCmd wfCmd body pre line post t0 ts hsc hpre htoks hbad
    unfold parseCommentsToWorkflowNames
    rw [hsc]
    apply parseLoop_reaches_bad
    cases pre with
    | nil =>
      refine ⟨line, by simp, ?_⟩
      unfold isBadLine
      rw [htoks]
      rcases hbad with h | h <;> simp [h]
    | cons b pre2 =>
      refine ⟨b, by simp, ?_⟩
      unfold isBadLine
      rw [hpre b (List.mem_cons_self b pre2)]
  · decide

/-- Witness for claim C5 at a concrete body whose first line starts with the
short token nope. -/
theorem claim5_witness :
    parseCommentsToWorkflowNames "retest" "test" "nope and\n/retest" = [] :=
  claim5_first_line_gating.1 "retest" "test" "nope and\n/retest" [] "nope and".data
    ["/retest".data] "nope".data ["and".data] (by decide) (by simp) (by decide)
    (Or.inl (by decide))

/-- Claim C10 counterexample: a line whose first token has fewer than 5
characters is claimed non-candidate, so the claim asserts the whole parse is
discarded; but the token has 5 UTF-8 bytes, the program accepts the line as a
candidate, and the command emitted by the earlier line survives. -/
theorem claim10_counterexample :
    scanLines "/retest\n/éé".data = "/retest".data :: ["/éé".data] ∧
    tokenizeLine "/éé".data = ["/éé".data] ∧
    "/éé".data.length < 5 ∧
    parseCommentsToWorkflowNames "retest" "test" "/retest\n/éé" = [testAll] :=
  ⟨by decide, by decide, by decide, by decide⟩

/-- Claim C10 amended: any scanned line that is not a candidate command line,
a blank line included — where the candidate test reads: nonempty after
tokenization, first token at least 5 UTF-8 bytes (not characters), first token
starting with a slash — makes the parser return the empty set, discarding
commands already emitted by earlier lines; a valid command line followed by a
blank line yields no commands, while the same command line alone yields its
command. -/
theorem claim10_bad_line_discards :
    (∀ (allCmd wfCmd body : String) (pre : List (List Char)) (line : List Char)
        (post : List (List Char)),
      scanLines body.data = pre ++ line :: post →
      isBadLine line = true →
      parseCommentsToWorkflowNames allCmd wfCmd body = []) ∧
    parseCommentsToWorkflowNames "rerun-all" "rerun-workflow" "/rerun-all\n\n" = [] ∧
    parseCommentsToWorkflowNames "rerun-all" "rerun-workflow" "/rerun-all\n" = [testAll] := by
  refine ⟨?_, by decide, by decide⟩
  intro allCmd wfCmd body pre line post hsc hbad
  unfold parseCommentsToWorkflowNames
  rw [hsc]
  exact parseLoop_reaches_bad allCmd.data wfCmd.data (pre ++ line :: post) []
    ⟨line, by simp, hbad⟩

/-- Witness for claim C10: a command line followed by a blank line and more
text parses to nothing. -/
theorem claim10_witness :
    parseCommentsToWorkflowNames "retest" "test" "/retest\n\nmore" = [] :=
  claim10_bad_line_discards.1 "retest" "test" "/retest\n\nmore" ["/retest".data] []
    ["more".data] (by decide) (by decide)

/-- Claim C7 counterexample: the tokenizer does not split on tabs, so a line
with tab-separated tokens parses differently from the space-separated one. -/
theorem claim7_counterexample :
    parseCommentsToWorkflowNames "retest" "test" "/test\tfoo" ≠
      parseCommentsToWorkflowNames "retest" "test" "/test foo" ∧
    parseCommentsToWorkflowNames "retest" "test" "/test foo" = ["foo"] ∧
    parseCommentsToWorkflowNames "retest" "test" "/test\tfoo" = [] :=
  ⟨by decide, by decide, by decide⟩

/-- Claim C7 amended: the parser tokenizes each line by splitting on the space
character, trimming whitespace around every piece and discarding empty pieces;
splitting at a space is a homomorphism on lines, but a tab adjoining a word is
kept inside the token, so tab separation is not equivalent to space
separation. -/
theorem claim7_space_tokenization :
    (∀ xs ys : List Char, tokenizeLine (xs ++ ' ' :: ys) = tokenizeLine xs ++ tokenizeLine ys) ∧
    parseCommentsToWorkflowNames "retest" "test" "/test foo" = ["foo"] ∧
    parseCommentsToWorkflowNames "retest" "test" "/test\tfoo" = [] :=
  ⟨tokenizeLine_space_append, by decide, by decide⟩

/-- Claim C4: the authorization check passes iff the allow list is empty or
the login matches every allow pattern, and the login matches no deny pattern;
an actor matching both an allow and a deny pattern is rejected; the webhook
variant canAuthorComment computes the same function. -/
theorem claim4_allow_deny_policy :
    ∀ (cfg : Config) (user : String),
      (canUserComment cfg user = true ↔
        ((cfg.allowUserRegexps = [] ∨ ∀ re ∈ cfg.allowUserRegexps, re user = true) ∧
          ∀ re ∈ cfg.denyUserRegexps, re user = false)) ∧
      (∀ pa ∈ cfg.allowUserRegexps, ∀ pd ∈ cfg.denyUserRegexps,
        pa user = true → pd user = true → canUserComment cfg user = false) ∧
      canAuthorComment cfg user = canUserComment cfg user := by
  intro cfg user
  refine ⟨?_, ?_, rfl⟩
  · constructor
    · intro h
      unfold canUserComment at h
      by_cases hA : cfg.allowUserRegexps.any (fun re => !re user) = true
      · rw [if_pos hA] at h; exact absurd h (by simp)
      · rw [if_neg hA] at h
        by_cases hD : cfg.denyUserRegexps.any (fun re => re user) = true
        · rw [if_pos hD] at h; exact absurd h (by simp)
        · refine ⟨Or.inr ?_, ?_⟩
          · intro re hre
            by_contra hfalse
            exact hA (List.any_eq_true.mpr ⟨re, hre, by simp [Bool.not_eq_true _ ▸ hfalse]⟩)
          · intro re hre
            by_contra htrue
            exact hD (List.any_eq_true.mpr ⟨re, hre, by
              cases hru : re user
              · exact absurd hru htrue
              · rfl⟩)
    · rintro ⟨hallow, hdeny⟩
      have hA : cfg.allowUserRegexps.any (fun re => !re user) = false := by
        rcases hallow with hemp | hall
        · rw [hemp]; rfl
        · rw [List.any_eq_false]
          intro re hre
          simp [hall re hre]
      have hD : cfg.denyUserRegexps.any (fun re => re user) = false := by
        rw [List.any_eq_false]
        intro re hre
        simp [hdeny re hre]
      simp [canUserComment, hA, hD]
  · intro pa hpa pd hpd hpau hpdu
    unfold canUserComment
    by_cases hA : cfg.allowUserRegexps.any (fun re => !re user) = true
    · simp [hA]
    · have hD : cfg.denyUserRegexps.any (fun re => re user) = true :=
        List.any_eq_true.mpr ⟨pd, hpd, hpdu⟩
      simp [hA, hD]

/-- Witness for claim C4: a login matching the only allow pattern and the only
deny pattern is rejected. -/
theorem claim4_witness :
    canUserComment ⟨[fun s => decide (s.length < 10)], [fun s => s == "alice"]⟩ "alice" = false :=
  (claim4_allow_deny_policy ⟨[fun s => decide (s.length < 10)], [fun s => s == "alice"]⟩
      "alice").2.1 _ (List.mem_singleton.mpr rfl) _ (List.mem_singleton.mpr rfl)
    (by decide) (by decide)

/-- Claim C1 counterexample: on an unlocked PR with no label, an actor passing
the regex policy (and even carrying a privileged association), the claimed
disjunction holds, yet the rerun_actions.go gate denies the rerun because it
requires the label and the regex policy together. -/
theorem claim1_counterexample :
    (hasOkToTestLabel ⟨true, false, [], 1, "bob"⟩ = true ∨
      isCommenterPrivileged "OWNER" = true ∨
      canUserComment ⟨[], []⟩ "alice" = true) ∧
    gateA ⟨[], []⟩ ⟨true, false, [], 1, "bob"⟩ "alice" = false :=
  ⟨Or.inr (Or.inr (by decide)), by decide⟩

/-- Claim C1 amended: each handler variant applies its own gate combination on
an unlocked PR: rerun_actions.go requires the ok-to-test label AND the regex
policy together; the webhook variant requires only the regex policy (its label
loop has no effect); the consolidated variant requires the label OR a
privileged association, ignoring the regex policy. -/
theorem claim1_gate_composition :
    ∀ (cfg : Config) (issue : Issue) (user assoc : String),
      (gateA cfg issue user = true ↔
        (issue.isPullRequest = true ∧ issue.locked = false ∧
          hasOkToTestLabel issue = true ∧ canUserComment cfg user = true)) ∧
      (gateB cfg issue user = true ↔
        (issue.isPullRequest = true ∧ issue.locked = false ∧
          canAuthorComment cfg user = true)) ∧
      (gateC issue assoc = true ↔
        (issue.isPullRequest = true ∧ issue.locked = false ∧
          (hasOkToTestLabel issue = true ∨ isCommenterPrivileged assoc = true))) := by
  intro cfg issue user assoc
  refine ⟨?_, ?_, ?_⟩
  · unfold gateA isIssueRerunable
    simp [and_assoc]
  · unfold gateB isIssueRerunableB
    cases hpr : issue.isPullRequest with
    | false => simp [hpr]
    | true => cases hl : issue.locked with
      | false => simp [hpr, hl]
      | true => simp [hpr, hl]
  · unfold gateC isIssueRerunable
    simp [and_assoc]

/-- Claim C2 counterexample: the webhook executor issues a rerun call for a
run with status completed and conclusion success. -/
theorem claim2_counterexample :
    execRunsB [⟨5, 1, "sha", 10, "completed", "success"⟩] = [ApiCall.rerunRun 5] := by
  decide

/-- Claim C2 amended: in the two Action executors a completed successful run
contributes no cancel and no rerun call; in the webhook executor it
contributes no cancel call but still exactly one rerun call. -/
theorem claim2_success_skip :
    ∀ (pre post : List WorkflowRun) (r : WorkflowRun),
      r.status = "completed" → r.conclusion = "success" →
      execRunsA (pre ++ r :: post) = execRunsA pre ++ execRunsA post ∧
      execRunsC (pre ++ r :: post) = execRunsC pre ++ execRunsC post ∧
      execRunsB (pre ++ r :: post) = execRunsB pre ++ ApiCall.rerunRun r.id :: execRunsB post := by
  intro pre post r h1 h2
  refine ⟨?_, ?_, ?_⟩
  · rw [execRunsA_append]
    congr 1
    simp [execRunsA, h1, h2]
  · rw [execRunsC_append]
    congr 1
    simp [execRunsC, h1, h2]
  · rw [execRunsB_append]
    congr 1
    simp [execRunsB, h1]

/-- Witness for claim C2 amended at a concrete completed successful run. -/
theorem claim2_witness :
    execRunsA ([] ++ (⟨5, 1, "sha", 10, "completed", "success"⟩ : WorkflowRun) :: []) =
        execRunsA [] ++ execRunsA [] ∧
      execRunsC ([] ++ (⟨5, 1, "sha", 10, "completed", "success"⟩ : WorkflowRun) :: []) =
        execRunsC [] ++ execRunsC [] ∧
      execRunsB ([] ++ (⟨5, 1, "sha", 10, "completed", "success"⟩ : WorkflowRun) :: []) =
        execRunsB [] ++
          ApiCall.rerunRun (⟨5, 1, "sha", 10, "completed", "success"⟩ : WorkflowRun).id ::
            execRunsB [] :=
  claim2_success_skip [] [] ⟨5, 1, "sha", 10, "completed", "success"⟩ rfl rfl

/-- Claim C3 counterexample: in the webhook handler variant there is no
self-workflow check: with GITHUB_WORKFLOW equal to ci and a workflow named ci,
the webhook pipeline still lists its runs, cancels and reruns the matching
run. -/
theorem claim3_counterexample :
    handleB ⟨[], []⟩ ⟨"created", ⟨true, false, [], 7, "bob"⟩, "alice", "/retest"⟩
        ⟨none, none, some ⟨"sha1", 5, false⟩, some [⟨1, "ci", "ci.yml", "active"⟩],
          (fun wid => if wid = 1 then some [⟨100, 1, "sha1", 10, "in_progress", ""⟩] else some []),
          "ci"⟩ =
      [ApiCall.getPR, ApiCall.listWorkflows, ApiCall.listRuns 1,
        ApiCall.cancelRun 100, ApiCall.rerunRun 100] := by
  decide

/-- Claim C3 amended: in the Action variants, workflows whose name or path
equals the current workflow identity are transparent to the selection:
removing them from the workflow list leaves the issued calls and the selected
runs unchanged, so such a workflow contributes no run; the webhook variant
performs no such check. -/
theorem claim3_self_skip_action :
    ∀ (currentWF : String) (pr : PullRequest) (runsOf : Nat → Option (List WorkflowRun))
        (wfs : List Workflow),
      selectLoopA currentWF pr runsOf
          (wfs.filter (fun w => !(currentWF == w.name || currentWF == w.path))) =
        selectLoopA currentWF pr runsOf wfs := by
  intro currentWF pr runsOf wfs
  unfold selectLoopA
  exact selectLoop_filter _ (fun w => currentWF == w.name || currentWF == w.path) pr runsOf
    (fun w hw => by simp only [Bool.or_eq_true] at hw ⊢; tauto) wfs

/-- Claim C6 counterexample: with a duplicated workflow entry the selector
returns the same run twice, so the result does contain two runs with the same
workflowID. -/
theorem claim6_counterexample :
    (selectLoopA "zzz" ⟨"sha1", 5, false⟩
        (fun wid => if wid = 7 then some [⟨42, 7, "sha1", 10, "completed", "failure"⟩]
          else some [])
        (targetWorkflows [testAll]
          [⟨7, "build", "wf.yml", "active"⟩, ⟨7, "build", "wf.yml", "active"⟩])).2 =
      some [⟨42, 7, "sha1", 10, "completed", "failure"⟩,
        ⟨42, 7, "sha1", 10, "completed", "failure"⟩] ∧
    ¬ List.Pairwise (fun a b : WorkflowRun => a.workflowID ≠ b.workflowID)
      [⟨42, 7, "sha1", 10, "completed", "failure"⟩,
        ⟨42, 7, "sha1", 10, "completed", "failure"⟩] := by
  constructor
  · decide
  · intro h
    rcases List.pairwise_cons.mp h with ⟨h1, -⟩
    exact h1 _ (List.mem_singleton.mpr rfl) rfl

/-- Claim C6 amended: whenever the targeted workflows carry pairwise distinct
ids and every run returned for a workflow carries that workflow id, the
selection result contains no two runs with the same workflowID (at most one
run is selected per workflow), and every selected run matches the PR head
SHA.  The statement covers both selector variants through the skip
parameter. -/
theorem claim6_at_most_one_per_workflow :
    ∀ (skip : Workflow → Bool) (pr : PullRequest) (runsOf : Nat → Option (List WorkflowRun))
        (cmds : List String) (wfs : List Workflow) (res : List WorkflowRun),
      ((targetWorkflows cmds wfs).map (fun w => w.id)).Nodup →
      (∀ w ∈ targetWorkflows cmds wfs, ∀ r ∈ (runsOf w.id).getD [], r.workflowID = w.id) →
      (selectLoop skip pr runsOf (targetWorkflows cmds wfs)).2 = some res →
      res.Pairwise (fun a b => a.workflowID ≠ b.workflowID) ∧
        ∀ r ∈ res, r.headSHA = pr.headSHA := by
  intro skip pr runsOf cmds wfs res hnd hids h
  exact ⟨selectLoop_pairwise skip pr runsOf _ res hnd hids h,
    fun r hr => (selectLoop_sound skip pr runsOf _ res hids h r hr).1⟩

/-- Witness for claim C6 amended on a two-workflow list with one matching
run. -/
theorem claim6_witness :
    List.Pairwise (fun a b : WorkflowRun => a.workflowID ≠ b.workflowID)
        [⟨42, 1, "sha1", 10, "completed", "failure"⟩] ∧
      ∀ r ∈ [(⟨42, 1, "sha1", 10, "completed", "failure"⟩ : WorkflowRun)],
        r.headSHA = (⟨"sha1", 5, false⟩ : PullRequest).headSHA :=
  claim6_at_most_one_per_workflow (fun _ => false) ⟨"sha1", 5, false⟩
    (fun wid => if wid = 1 then some [⟨42, 1, "sha1", 10, "completed", "failure"⟩] else some [])
    [testAll] [⟨1, "a", "pa", "active"⟩, ⟨2, "b", "pb", "active"⟩]
    [⟨42, 1, "sha1", 10, "completed", "failure"⟩] (by decide) (by decide) (by decide)

/-- Claim C8: whenever the fetched pull request is merged, the Run Selector is
never invoked and the selection result is empty: every call in the variant A
trace is one of the comment, issue, or PR fetches, and every call in the
variant B trace is the PR fetch; in particular no workflow-list, run-list,
cancel, or rerun call occurs. -/
theorem claim8_merged_pr :
    ∀ (cfg : Config) (env : Env) (event : IssueCommentEvent) (pr : PullRequest),
      env.pr = some pr → pr.merged = true →
      (∀ c ∈ handleA cfg env,
        c = ApiCall.getComment ∨ c = ApiCall.getIssue ∨ c = ApiCall.getPR) ∧
      (∀ c ∈ handleB cfg event env, c = ApiCall.getPR) := by
  intro cfg env event pr hpr hm
  constructor
  · intro c hc
    cases hcom : env.comment with
    | none =>
      simp [handleA, hcom] at hc
      tauto
    | some comment =>
      cases hiss : env.issue with
      | none =>
        simp [handleA, hcom, hiss] at hc
        tauto
      | some issue =>
        cases hg : gateA cfg issue comment.user with
        | false =>
          simp [handleA, hcom, hiss, hg] at hc
          tauto
        | true =>
          simp [handleA, hcom, hiss, hg, hpr, hm] at hc
          tauto
  · intro c hc
    by_cases hact : event.action = "created"
    · cases hg : gateB cfg event.issue event.commentUser with
      | false => simp [handleB, hact, hg] at hc
      | true =>
        simp [handleB, hact, hg, hpr, hm] at hc
        exact hc
    · simp [handleB, hact] at hc

/-- Witness for claim C8 on a concrete environment carrying a merged PR. -/
theorem claim8_witness :
    ApiCall.getPR = ApiCall.getComment ∨ ApiCall.getPR = ApiCall.getIssue ∨
      ApiCall.getPR = ApiCall.getPR :=
  (claim8_merged_pr ⟨[], []⟩
      ⟨some ⟨"alice", "/retest", "NONE"⟩, some ⟨true, false, ["ok-to-test"], 7, "bob"⟩,
        some ⟨"sha1", 5, true⟩, some [], (fun _ => some []), "zzz"⟩
      ⟨"created", ⟨true, false, [], 7, "bob"⟩, "alice", "/retest"⟩
      ⟨"sha1", 5, true⟩ rfl rfl).1 ApiCall.getPR (by decide)

/-- Claim C9: if fetching the comment, issue, PR, workflow list, or any
workflow run list fails, the invocation terminates with no side effects: no
cancel and no rerun call appears in the trace, even when the run-list failure
happens after runs were already selected for earlier workflows. -/
theorem claim9_fetch_failure :
    ∀ (cfg : Config) (env : Env) (event : IssueCommentEvent),
      ((env.comment = none ∨ env.issue = none ∨ env.pr = none ∨ env.workflows = none ∨
          ∃ wid, ApiCall.listRuns wid ∈ handleA cfg env ∧ env.runsOf wid = none) →
        ∀ c ∈ handleA cfg env, c.isMutation = false) ∧
      ((env.pr = none ∨ env.workflows = none ∨
          ∃ wid, ApiCall.listRuns wid ∈ handleB cfg event env ∧ env.runsOf wid = none) →
        ∀ c ∈ handleB cfg event env, c.isMutation = false) := by
  intro cfg env event
  constructor
  · intro hyp c hc
    cases hcom : env.comment with
    | none =>
      simp [handleA, hcom] at hc
      subst hc
      rfl
    | some comment =>
      cases hiss : env.issue with
      | none =>
        simp [handleA, hcom, hiss] at hc
        rcases hc with rfl | rfl <;> rfl
      | some issue =>
        cases hg : gateA cfg issue comment.user with
        | false =>
          simp [handleA, hcom, hiss, hg] at hc
          rcases hc with rfl | rfl <;> rfl
        | true =>
          cases hpr : env.pr with
          | none =>
            simp [handleA, hcom, hiss, hg, hpr] at hc
            rcases hc with rfl | rfl | rfl <;> rfl
          | some pr =>
            cases hm : pr.merged with
            | true =>
              simp [handleA, hcom, hiss, hg, hpr, hm] at hc
              rcases hc with rfl | rfl | rfl <;> rfl
            | false =>
              cases hwf : env.workflows with
              | none =>
                simp [handleA, hcom, hiss, hg, hpr, hm, hwf] at hc
                rcases hc with rfl | rfl | rfl | rfl <;> rfl
              | some allWfs =>
                cases hsel : (selectLoopA env.githubWorkflow pr env.runsOf
                    (targetWorkflows
                      (parseCommentsToWorkflowNames "retest" "test" comment.body) allWfs)).2 with
                | none =>
                  simp [handleA, hcom, hiss, hg, hpr, hm, hwf, hsel] at hc
                  rcases hc with rfl | rfl | rfl | rfl | hc
                  · rfl
                  · rfl
                  · rfl
                  · rfl
                  · obtain ⟨wid, rfl⟩ := selectLoop_calls _ pr env.runsOf _ c hc
                    rfl
                | some runs =>
                  rcases hyp with h | h | h | h | ⟨wid, hmem, hnone⟩
                  · rw [hcom] at h; cases h
                  · rw [hiss] at h; cases h
                  · rw [hpr] at h; cases h
                  · rw [hwf] at h; cases h
                  · simp [handleA, hcom, hiss, hg, hpr, hm, hwf, hsel] at hmem
                    rcases hmem with hmem | hmem
                    · have hfail := selectLoop_fail _ pr env.runsOf _ wid hmem hnone
                      exact Option.noConfusion (hsel.symm.trans hfail)
                    · exact absurd hmem (listRuns_notin_execA wid runs)
  · intro hyp c hc
    by_cases hact : event.action = "created"
    · cases hg : gateB cfg event.issue event.commentUser with
      | false => simp [handleB, hact, hg] at hc
      | true =>
        cases hpr : env.pr with
        | none =>
          simp [handleB, hact, hg, hpr] at hc
          subst hc
          rfl
        | some pr =>
          cases hm : pr.merged with
          | true =>
            simp [handleB, hact, hg, hpr, hm] at hc
            subst hc
            rfl
          | false =>
            cases hwf : env.workflows with
            | none =>
              simp [handleB, hact, hg, hpr, hm, hwf] at hc
              rcases hc with rfl | rfl <;> rfl
            | some allWfs =>
              cases hsel : (selectLoopB pr env.runsOf
                  (targetWorkflows
                    (parseCommentsToWorkflowNames "retest" "test" event.commentBody)
                    allWfs)).2 with
              | none =>
                simp [handleB, hact, hg, hpr, hm, hwf, hsel] at hc
                rcases hc with rfl | rfl | hc
                · rfl
                · rfl
                · obtain ⟨wid, rfl⟩ := selectLoop_calls _ pr env.runsOf _ c hc
                  rfl
              | some runs =>
                rcases hyp with h | h | ⟨wid, hmem, hnone⟩
                · rw [hpr] at h; cases h
                · rw [hwf] at h; cases h
                · simp [handleB, hact, hg, hpr, hm, hwf, hsel] at hmem
                  rcases hmem with hmem | hmem
                  · have hfail := selectLoop_fail _ pr env.runsOf _ wid hmem hnone
                    exact Option.noConfusion (hsel.symm.trans hfail)
                  · exact absurd hmem (listRuns_notin_execB wid runs)
    · simp [handleB, hact] at hc

/-- Witness for claim C9: with the second workflow run-list fetch failing
after a run was already selected for the first workflow, the trace stays free
of mutations. -/
theorem claim9_witness : (ApiCall.listRuns 2).isMutation = false :=
  (claim9_fetch_failure ⟨[], []⟩
      ⟨some ⟨"alice", "/retest", "NONE"⟩, some ⟨true, false, ["ok-to-test"], 7, "bob"⟩,
        some ⟨"sha1", 5, false⟩, some [⟨1, "a", "pa", "active"⟩, ⟨2, "b", "pb", "active"⟩],
        (fun wid => if wid = 1 then some [⟨100, 1, "sha1", 10, "in_progress", ""⟩] else none),
        "zzz"⟩
      ⟨"created", ⟨true, false, [], 7, "bob"⟩, "alice", "/retest"⟩).1
    (Or.inr (Or.inr (Or.inr (Or.inr ⟨2, by decide, rfl⟩))))
    (ApiCall.listRuns 2) (by decide)
